import Mathlib

/-!
Shallow embedding of the depup repository (src/vcs.py, src/depup.py) used to
verify the natural-language specification against the code.

Python text is modelled as `List Char`.  The string primitives below embed
the Python methods `str.replace`, `str.strip` and `str.splitlines` as used on
the VCS log output (the log text of these tools is ASCII with `\n`/`\r`
line boundaries, so the embedding restricts `splitlines`/`strip` to the
ASCII whitespace and line-boundary characters).
-/

namespace Depup

/-- Worker for `pyReplace`, structurally recursive on a fuel argument
bounded below by the input length (every step consumes at least one
character, so `s.length` fuel always suffices); structural recursion keeps
the definition evaluable by the kernel. -/
def pyReplaceGo (old new : List Char) : Nat → List Char → List Char
  | _, [] => []
  | 0, s => s
  | fuel + 1, c :: rest =>
    if old ≠ [] ∧ (c :: rest).take old.length = old then
      new ++ pyReplaceGo old new fuel ((c :: rest).drop old.length)
    else
      c :: pyReplaceGo old new fuel rest

/-- Embedding of Python `s.replace(old, new)` for a nonempty `old`:
replaces every leftmost non-overlapping occurrence of `old` by `new`. -/
def pyReplace (old new : List Char) (s : List Char) : List Char :=
  pyReplaceGo old new s.length s

/-- Whitespace characters recognised by Python `str.strip` (ASCII subset). -/
def isPySpace (c : Char) : Bool :=
  c = ' ' || c = '\t' || c = '\n' || c = '\r' || c = '\x0b' || c = '\x0c'

/-- Embedding of Python `s.strip()`: removes leading and trailing whitespace. -/
def pyStrip (s : List Char) : List Char :=
  ((s.dropWhile isPySpace).reverse.dropWhile isPySpace).reverse

/-- Worker for `pySplitlines`; `cur` holds the reversed current line. -/
def splitlinesGo (s : List Char) (cur : List Char) : List (List Char) :=
  match s with
  | [] => [cur.reverse]
  | '\r' :: '\n' :: rest =>
    cur.reverse :: (if rest.isEmpty then [] else splitlinesGo rest [])
  | '\n' :: rest =>
    cur.reverse :: (if rest.isEmpty then [] else splitlinesGo rest [])
  | '\r' :: rest =>
    cur.reverse :: (if rest.isEmpty then [] else splitlinesGo rest [])
  | c :: rest => splitlinesGo rest (c :: cur)

/-- Embedding of Python `s.splitlines()` (for `\n`, `\r\n`, `\r` boundaries):
one element per line, no trailing empty element for a trailing newline. -/
def pySplitlines (s : List Char) : List (List Char) :=
  if s.isEmpty then [] else splitlinesGo s []

/-- Transcribed from `Vcs.JSON_DQUOTES` in src/vcs.py: the placeholder token
the log templates emit in place of a literal double quote. -/
def JSON_DQUOTES : List Char := "__DQ__".toList

/-- Transcribed from `Vcs._escape_changes` in src/vcs.py:
`changes.replace('"', '\\"').replace(self.JSON_DQUOTES, '"')`. -/
def escape_changes (changes : List Char) : List Char :=
  pyReplace JSON_DQUOTES ['"'] (pyReplace ['"'] ['\\', '"'] changes)

/-- Transcribed from `Vcs._changes_as_json` in src/vcs.py: the exact text
handed to `json.loads`, namely
`'[{}]'.format(','.join(self._escape_changes(changes).strip().splitlines()))`. -/
def changes_json_text (changes : List Char) : List Char :=
  '[' :: (List.intercalate [','] (pySplitlines (pyStrip (escape_changes changes)))) ++ [']']

/-- One parsed commit record (`hash`, `author`, `date`, `message`). -/
structure LogRecord where
  hash : List Char
  author : List Char
  date : List Char
  message : List Char
deriving DecidableEq

/-- Transcribed from `Vcs._changes_as_json` in src/vcs.py: `json.loads` is an
external library call, modelled as a parameter `jsonLoads`; a parse failure is
an error of the whole call (`json.loads` raises), never a skipped record. -/
def changes_as_json (jsonLoads : List Char → Except String (List LogRecord))
    (changes : List Char) : Except String (List LogRecord) :=
  jsonLoads (changes_json_text changes)

/-- Written from the words of the specification (section 4.2 / claim C4):
"every literal double-quote character in the raw text is escaped as a
backslash-quote", character by character. -/
def specEscapeQuotes : List Char → List Char
  | [] => []
  | c :: rest => (if c = '"' then ['\\', '"'] else [c]) ++ specEscapeQuotes rest

/-- Written from the words of the specification (section 4.2 / claim C4),
for comparison with `changes_json_text`: escape every literal double quote,
replace every occurrence of the placeholder token by a double quote, join
the newline-delimited objects with commas and wrap in square brackets.  The
specification lists no stripping step. -/
def claim_json_text (changes : List Char) : List Char :=
  '[' :: (List.intercalate [',']
    (pySplitlines (pyReplace JSON_DQUOTES ['"'] (specEscapeQuotes changes)))) ++ [']']

/-- Written from the words of claim C4 as amended: identical to
`claim_json_text` except that the escaped text is stripped of leading and
trailing whitespace before being split into lines. -/
def claim_json_text_amended (changes : List Char) : List Char :=
  '[' :: (List.intercalate [',']
    (pySplitlines (pyStrip (pyReplace JSON_DQUOTES ['"'] (specEscapeQuotes changes))))) ++ [']']

/-! ## Backend kinds, revision-range expressions and change lists -/

/-- The two backend kinds of the system (the closed set `[Git, Mercurial]`). -/
inductive VcsKind where
  | hg : VcsKind
  | git : VcsKind
deriving DecidableEq

/-- Transcribed from the `EXECUTABLE` class attributes in src/vcs.py. -/
def VcsKind.executable : VcsKind → String
  | .hg => "hg"
  | .git => "git"

/-- Transcribed from the `_other_cls` assignments in src/vcs.py: each kind
names its counterpart. -/
def VcsKind.other : VcsKind → VcsKind
  | .hg => .git
  | .git => .hg

/-- Transcribed from `Mercurial.REVISION_URL.format(...)` in src/vcs.py. -/
def hgRevisionUrl (repository revision : String) : String :=
  "https://hg.adblockplus.org/" ++ repository ++ "/rev/" ++ revision

/-- Transcribed from `Git.REVISION_URL.format(...)` in src/vcs.py. -/
def gitRevisionUrl (repository revision : String) : String :=
  "https://www.github.com/adblockplus/" ++ repository ++ "/commit/" ++ revision

/-- Revision-URL template dispatch by backend kind. -/
def VcsKind.revisionUrl : VcsKind → String → String → String
  | .hg => hgRevisionUrl
  | .git => gitRevisionUrl

/-- Transcribed from `Mercurial._rev_comb` in src/vcs.py:
`('-r', '{}::{}'.format(rev_a, rev_b))`. -/
def Mercurial.rev_comb (rev_a rev_b : String) : List String :=
  ["-r", rev_a ++ "::" ++ rev_b]

/-- Transcribed from `Git._rev_comb` in src/vcs.py:
`('{}..{}'.format(rev_a, rev_b),)`. -/
def Git.rev_comb (rev_a rev_b : String) : List String :=
  [rev_a ++ ".." ++ rev_b]

/-- Modelled from the spec: the raw output of `hg log -r 'a::b'` over a linear
history of `n` commits, where a revision is its chronological index
(`0` oldest). The revset `a::b` selects the commits that are descendants of
`a` and ancestors of `b`, inclusive of both boundaries (empty when `a` is not
an ancestor of `b`), and the tool emits the changesets newest-first (spec
section 4.3; the comment in `Mercurial.change_list` records the reversed
ordering). `hg log` itself is an external tool, absent from src/. -/
def hgRawLog (n a b : Nat) : List Nat :=
  ((List.range n).filter (fun i => a ≤ i && i ≤ b)).reverse

/-- Modelled from the spec: the raw output of `git log a..b` over a linear
history of `n` commits. The two-dot range selects the commits reachable from
`b` but not from `a` (exclusive of `a`, inclusive of `b`), and the raw output
is consumed oldest-first with no post-processing (spec section 4.3).
`git log` itself is an external tool, absent from src/. -/
def gitRawLog (n a b : Nat) : List Nat :=
  (List.range n).filter (fun i => a < i && i ≤ b)

/-- Transcribed from `Mercurial.change_list` in src/vcs.py:
`list(reversed(super(Mercurial, self).change_list(*args)[1:]))` — the raw
log output with its first element dropped, then reversed. -/
def mercurialChangeList (n a b : Nat) : List Nat :=
  ((hgRawLog n a b).drop 1).reverse

/-- Transcribed from `Vcs.change_list` in src/vcs.py as inherited by `Git`:
the parsed raw log output, with no post-processing. -/
def gitChangeList (n a b : Nat) : List Nat :=
  gitRawLog n a b

/-! ## Python dictionaries and `Vcs.enhance_changes_information` -/

/-- A Python `dict` with string keys and values, modelled as an association
list in insertion order. -/
abbrev PyDict := List (String × String)

/-- Embedding of Python `d.get(k)` / `d[k]` as an optional lookup. -/
def dictGet (d : PyDict) (k : String) : Option String :=
  (d.find? (fun p => p.1 == k)).map Prod.snd

/-- Embedding of Python `d[k] = v`: overwrites an existing key in place,
appends a new key at the end (insertion order). -/
def dictSet (d : PyDict) (k v : String) : PyDict :=
  if (d.find? (fun p => p.1 == k)).isSome then
    d.map (fun p => if p.1 == k then (k, v) else p)
  else
    d ++ [(k, v)]

/-- Embedding of Python `del d[k]`. -/
def dictDel (d : PyDict) (k : String) : PyDict :=
  d.filter (fun p => !(p.1 == k))

/-- Embedding of a Python dict built from a sequence of key/value pairs
(later occurrences of a key overwrite earlier ones). -/
def dictFromPairs (ps : List (String × String)) : PyDict :=
  ps.foldl (fun d p => dictSet d p.1 p.2) []

/-- The (author, date, message) metadata triple of a change record, as read
by `enhance_changes_information` (a missing key reads as `""`, which cannot
occur for records produced by `change_list`). -/
def tripleOf (c : PyDict) : String × String × String :=
  ((dictGet c "author").getD "", (dictGet c "date").getD "",
   (dictGet c "message").getD "")

/-- Transcribed from the dict comprehension in
`Vcs.enhance_changes_information` (src/vcs.py lines 129-134): the sequence of
`matching_hash` queries issued against the mirror, one per element of
`changes`, in list order. `matching_hash` spawns a subprocess search of the
counterpart repository; it is modelled by the pure oracle `query`. -/
def mirrorQueries (changes : List PyDict) : List (String × String × String) :=
  changes.map tripleOf

/-- Transcribed from `Vcs.enhance_changes_information` (src/vcs.py): the
`mirrored_hashes` dict, keyed by each change's `hash`, valued by the result
of the mirror search for that change's metadata triple. -/
def mirrored_hashes (query : String × String × String → String)
    (changes : List PyDict) : PyDict :=
  dictFromPairs (changes.map (fun c => ((dictGet c "hash").getD "", query (tripleOf c))))

/-- Transcribed from the `for change in changes:` body of
`Vcs.enhance_changes_information` (src/vcs.py lines 138-148), for one record:
set `<self>_url` and `<self>_hash`, look the record's hash up in `mirrored`
with default `'NO MIRROR'`, delete `hash`, then set `<mirror>_url` and
`<mirror>_hash`. -/
def enhanceChange (kind : VcsKind) (repository : String) (mirrored : PyDict)
    (c : PyDict) : PyDict :=
  let self_ex := kind.executable
  let mirr_ex := kind.other.executable
  let h := (dictGet c "hash").getD ""
  let c1 := dictSet c (self_ex ++ "_url") (kind.revisionUrl repository h)
  let c2 := dictSet c1 (self_ex ++ "_hash") h
  let mirrored_hash := (dictGet mirrored h).getD "NO MIRROR"
  let c3 := dictDel c2 "hash"
  let c4 := dictSet c3 (mirr_ex ++ "_url") (kind.other.revisionUrl repository mirrored_hash)
  dictSet c4 (mirr_ex ++ "_hash") mirrored_hash

/-- Transcribed from `Vcs.enhance_changes_information` (src/vcs.py lines
108-148): when `fake` is set the `mirrored_hashes` dict is empty (so every
lookup falls back to `'NO MIRROR'`); otherwise it is built by one mirror
search per change; then every record is rewritten in place. -/
def enhance_changes_information (kind : VcsKind) (repository : String)
    (query : String × String × String → String) (fake : Bool)
    (changes : List PyDict) : List PyDict :=
  let mirrored := if fake then [] else mirrored_hashes query changes
  changes.map (enhanceChange kind repository mirrored)

/-- A record as produced by `change_list`: exactly the keys `hash`,
`author`, `date`, `message`, in template order. -/
def WfChange (c : PyDict) : Prop :=
  ∃ h a d m : String,
    c = [("hash", h), ("author", a), ("date", d), ("message", m)]

/-- The key list of a record dict. -/
def dictKeys (d : PyDict) : List String := d.map Prod.fst

/-! ## `Vcs.factory` and `Vcs.is_vcs_for_repo` -/

/-- The marker-relevant contents of a filesystem path: whether the `.hg`
marker and the `.git` marker exist directly under it. -/
structure RepoPath where
  hasHg : Bool
  hasGit : Bool
deriving DecidableEq

/-- Transcribed from `Vcs.is_vcs_for_repo` in src/vcs.py:
`os.path.exists(os.path.join(path, cls.VCS_REQUIREMENT))`, with
`VCS_REQUIREMENT` equal to `'.hg'` for Mercurial and `'.git'` for Git. -/
def VcsKind.is_vcs_for_repo : VcsKind → RepoPath → Bool
  | .hg, p => p.hasHg
  | .git, p => p.hasGit

/-- Transcribed from one iteration of the `for cls in [Git, Mercurial]:` loop
in `Vcs.factory` (src/vcs.py lines 153-159): if `cls` matches while a
previous kind already matched, raise `VcsException`; the source message reads
"Found multiple possible VCS' for " plus the location. -/
def factoryStep (p : RepoPath) (kind : VcsKind) (location : String)
    (obj : Option VcsKind) : Except String (Option VcsKind) :=
  if kind.is_vcs_for_repo p then
    if obj.isSome then
      .error ("Found multiple possible VCS for " ++ location)
    else
      .ok (some kind)
  else
    .ok obj

/-- Transcribed from `Vcs.factory` in src/vcs.py (lines 150-163): the loop
runs over `[Git, Mercurial]` in that order; afterwards a still-unset `obj`
raises `VcsException('No valid VCS found for ' + location)`. -/
def factory (p : RepoPath) (location : String) : Except String VcsKind :=
  match factoryStep p .git location none with
  | .error e => .error e
  | .ok o1 =>
    match factoryStep p .hg location o1 with
    | .error e => .error e
    | .ok o2 =>
      match o2 with
      | none => .error ("No valid VCS found for " ++ location)
      | some k => .ok k

/-! ## `Vcs.run_cmd` -/

/-- The observable outcome of one subprocess invocation: its exit code, the
text it wrote to stdout and the text it wrote to stderr. -/
structure ProcResult where
  exitCode : Nat
  stdout : String
  stderr : String
deriving DecidableEq

/-- The payload of Python's `subprocess.CalledProcessError` as raised by
`subprocess.check_output`: the exit code and `output`, the captured stdout. -/
structure CalledProcessError where
  returncode : Nat
  output : String
deriving DecidableEq

/-- Transcribed from `Vcs.run_cmd` in src/vcs.py (lines 54-66): the child's
stderr is redirected to `os.devnull` (discarded on every path);
`check_output` returns the captured stdout on a zero exit and raises
`CalledProcessError` carrying the exit code and the captured stdout
otherwise; the handler prints `e.output` (the stdout) to the tool's own
stderr stream and re-raises. The pair's second component is the text printed
to that stream. -/
def runCmd (p : ProcResult) : Except CalledProcessError String × String :=
  if p.exitCode = 0 then
    (.ok p.stdout, "")
  else
    (.error ⟨p.exitCode, p.stdout⟩, p.stdout)

/-! ## Temporary working copies and the context-manager protocol -/

/-- The fields of a `Vcs` handle that govern cleanup: its working directory
and the `_clean_up` flag set by `__init__`. -/
structure VcsHandle where
  cwd : String
  cleanUp : Bool
deriving DecidableEq

/-- Transcribed from `Vcs.__init__` in src/vcs.py (lines 21-38): when the
location exists locally the handle binds to it with `_clean_up = False`;
otherwise a temporary directory `tmp` is materialized (`_make_temporary`)
and `_clean_up = True`. Returns the handle and the filesystem (the list of
existing directories) after construction. -/
def vcsInit (fs : List String) (location tmp : String) : VcsHandle × List String :=
  if location ∈ fs then
    (⟨location, false⟩, fs)
  else
    (⟨tmp, true⟩, tmp :: fs)

/-- Transcribed from `Vcs.__exit__` in src/vcs.py (lines 44-47): remove the
handle's directory iff `_clean_up` is set. -/
def vcsExit (h : VcsHandle) (fs : List String) : List String :=
  if h.cleanUp then fs.erase h.cwd else fs

/-- Embedding of the `with self._other_cls(dependency_location) as mirror:`
block in `Vcs.enhance_changes_information` (src/vcs.py lines 126-134):
construct the handle, run the body (which may raise, modelled by `Except`),
then run `__exit__` unconditionally — Python runs `__exit__` on every exit
path of a `with` block, and `Vcs.__exit__` returns `None`, so an exception
raised by the body still propagates. Returns the body's outcome and the
final filesystem. -/
def withVcs {ε α : Type} (fs : List String) (location tmp : String)
    (body : VcsHandle → Except ε α) : Except ε α × List String :=
  let (h, fs1) := vcsInit fs location tmp
  (body h, vcsExit h fs1)

/-! ## Working-copy operations and `DepUpdate.commit_update`

The methods `repo_is_clean`, `undo_changes` and `commit_changes` are invoked
on `Vcs` handles by src/depup.py (lines 87, 435, 439) and exercised by
tests/test_vcs.py, but their definitions are not present under src/; they
are modelled here from the spec (section 4.4). -/

/-- A working copy: the committed history (each entry a commit message with
the set of modifications it committed) and the pending uncommitted
modifications. -/
structure WorkingCopy where
  committed : List (String × List String)
  pending : List String
deriving DecidableEq

/-- Modelled from the spec: `isWorkingCopyClean() -> bool`, "true iff the
working copy has no uncommitted modifications" (the implementation of
`repo_is_clean` is absent from src/, only its callers and tests are). -/
def repo_is_clean (w : WorkingCopy) : Bool :=
  w.pending.isEmpty

/-- Modelled from the spec: `discardChanges()`, "reverts the working copy to
the last committed state" (the implementation of `undo_changes` is absent
from src/, only its callers and tests are). -/
def undo_changes (w : WorkingCopy) : WorkingCopy :=
  ⟨w.committed, []⟩

/-- Modelled from the spec: `commitChanges(message)`, "commits all pending
modifications with the given message" (the implementation of
`commit_changes` is absent from src/, only its callers and tests are). -/
def commit_changes (message : String) (w : WorkingCopy) : WorkingCopy :=
  ⟨w.committed ++ [(message, w.pending)], []⟩

/-- The state touched by `DepUpdate.commit_update`: the root repository's
working copy and the dependency's (`_main_vcs`) working copy. -/
structure DepState where
  root : WorkingCopy
  main : WorkingCopy
deriving DecidableEq

/-- Transcribed from `DepUpdate.commit_update` in src/depup.py (lines
426-440): inside `try`, `_update_dependencies_file()` (a manifest rewrite,
modelled by `updateDeps` acting on the root working copy),
`_update_copied_code()` and `root_repo.commit_changes(commit_msg)` run in
order; the two subprocess steps may raise `CalledProcessError` (modelled by
the `updateCopiedFails` / `commitFails` oracles); the `except` handler then
calls `self._main_vcs.undo_changes()`. Returns the value returned to the
caller (the commit message on success, `None` on rollback), the final state,
and whether `undo_changes` was invoked. -/
def commit_update (commit_msg : String) (updateDeps : WorkingCopy → WorkingCopy)
    (updateCopiedFails commitFails : Bool) (st : DepState) :
    Option String × DepState × Bool :=
  let st1 : DepState := { st with root := updateDeps st.root }
  if updateCopiedFails then
    (none, { st1 with main := undo_changes st1.main }, true)
  else if commitFails then
    (none, { st1 with main := undo_changes st1.main }, true)
  else
    (some commit_msg, { st1 with root := commit_changes commit_msg st1.root }, false)

/-! ## Downgrade detection in `DepUpdate.__init__` -/

/-- Transcribed from `DepUpdate.__init__` in src/depup.py (lines 94-104):
list the forward range; if it is empty, list the reverse range and keep that
result, warning ("You are trying to downgrade the dependency!") iff the
reverse listing is non-empty. `change_list` is modelled by the oracle `f`.
Returns the change list the object proceeds with and whether the downgrade
warning was emitted. -/
def initChanges {ρ α : Type} (f : ρ → ρ → List α) (base newRevision : ρ) :
    List α × Bool :=
  let changes := f base newRevision
  if changes.length = 0 then
    let rev := f newRevision base
    (rev, decide (rev.length > 0))
  else
    (changes, false)

/-- Number of mirror searches issued for the metadata triple `t` during one
`enhance_changes_information` pass over `changes`. -/
def searchCount (t : String × String × String) (changes : List PyDict) : Nat :=
  (mirrorQueries changes).countP (fun q => decide (q = t))

/-- A change record with hash `aaa1`, author `alice`, date `2018-01-01` and
message `squash`. -/
def squashChangeA : PyDict :=
  [("hash", "aaa1"), ("author", "alice"), ("date", "2018-01-01"),
   ("message", "squash")]

/-- A change record sharing author, date and message with `squashChangeA`
but carrying the distinct hash `bbb2` (squashed history). -/
def squashChangeB : PyDict :=
  [("hash", "bbb2"), ("author", "alice"), ("date", "2018-01-01"),
   ("message", "squash")]

/-- Per-record frame property of the enhancement step: author, date and
message unchanged, the `hash` key removed, the key set extended by exactly
`hg_hash`, `git_hash`, `hg_url` and `git_url`, and the skip flag forcing the
mirror-side hash to the sentinel `'NO MIRROR'`. -/
def EnhancedRecordProp (kind : VcsKind) (fake : Bool) (c c2 : PyDict) : Prop :=
  dictGet c2 "author" = dictGet c "author" ∧
  dictGet c2 "date" = dictGet c "date" ∧
  dictGet c2 "message" = dictGet c "message" ∧
  dictGet c2 "hash" = none ∧
  (∀ k : String, k ∈ dictKeys c2 ↔
    ((k ∈ dictKeys c ∧ k ≠ "hash") ∨
      k ∈ (["hg_hash", "git_hash", "hg_url", "git_url"] : List String))) ∧
  (fake = true → dictGet c2 (kind.other.executable ++ "_hash") = some "NO MIRROR")

/-! ## Helper lemmas -/

theorem range_filter_beq (n r : Nat) :
    (List.range n).filter (fun i => i == r) = if r < n then [r] else [] := by
  induction n with
  | zero => simp
  | succ n ih =>
    rw [List.range_succ, List.filter_append, ih]
    by_cases h : n = r
    · subst h
      simp [Nat.lt_irrefl, Nat.lt_succ_self]
    · have hbeq : (n == r) = false := beq_eq_false_iff_ne.mpr h
      by_cases hr : r < n
      · have h2 : r < n + 1 := Nat.lt_succ_of_lt hr
        simp [hbeq, hr, h2]
      · have h2 : ¬(r < n + 1) := by omega
        simp [hbeq, hr, h2]

theorem range_filter_le_le (n r : Nat) :
    (List.range n).filter (fun i => r ≤ i && i ≤ r) =
      if r < n then [r] else [] := by
  have hcong : (List.range n).filter (fun i => r ≤ i && i ≤ r) =
      (List.range n).filter (fun i => i == r) := by
    apply List.filter_congr
    intro a _
    by_cases h : a = r
    · subst h; simp
    · rw [beq_eq_false_iff_ne.mpr h]
      rcases Nat.lt_or_ge a r with hlt | hge
      · have hd : decide (r ≤ a) = false := decide_eq_false (by omega)
        simp [hd]
      · have hd : decide (a ≤ r) = false := decide_eq_false (by omega)
        simp [hd]
  rw [hcong, range_filter_beq]

theorem drop_one_of_length_le_one {α : Type} {l : List α}
    (h : l.length ≤ 1) : l.drop 1 = [] := by
  cases l with
  | nil => rfl
  | cons a t =>
    cases t with
    | nil => rfl
    | cons b u => simp at h

theorem pyReplaceGo_single (q : Char) (new : List Char) :
    ∀ (fuel : Nat) (s : List Char), s.length ≤ fuel →
      pyReplaceGo [q] new fuel s =
        s.foldr (fun c acc => (if c = q then new else [c]) ++ acc) [] := by
  intro fuel
  induction fuel with
  | zero =>
    intro s hs
    cases s with
    | nil => rfl
    | cons c rest => simp at hs
  | succ fuel ih =>
    intro s hs
    cases s with
    | nil => rfl
    | cons c rest =>
      have hrest : rest.length ≤ fuel := by
        simp only [List.length_cons] at hs; omega
      simp only [pyReplaceGo]
      by_cases hc : c = q
      · rw [if_pos ⟨by simp, by simp [hc]⟩]
        have hdrop : (c :: rest).drop ([q] : List Char).length = rest := by simp
        rw [hdrop, ih rest hrest]
        simp [hc]
      · rw [if_neg (by simp [hc]), ih rest hrest]
        simp [hc]

theorem pyReplace_quote_eq_spec (s : List Char) :
    pyReplace ['"'] ['\\', '"'] s = specEscapeQuotes s := by
  rw [pyReplace, pyReplaceGo_single _ _ s.length s le_rfl]
  induction s with
  | nil => rfl
  | cons c rest ih => simp only [List.foldr, specEscapeQuotes, ih]

theorem escape_changes_eq_spec (s : List Char) :
    escape_changes s = pyReplace JSON_DQUOTES ['"'] (specEscapeQuotes s) := by
  rw [escape_changes, pyReplace_quote_eq_spec]

theorem enhanceChange_hg (repository : String) (mirrored : PyDict)
    (h a d m : String) :
    enhanceChange .hg repository mirrored
        [("hash", h), ("author", a), ("date", d), ("message", m)] =
      [("author", a), ("date", d), ("message", m),
       ("hg_url", hgRevisionUrl repository h), ("hg_hash", h),
       ("git_url", gitRevisionUrl repository ((dictGet mirrored h).getD "NO MIRROR")),
       ("git_hash", (dictGet mirrored h).getD "NO MIRROR")] := rfl

theorem enhanceChange_git (repository : String) (mirrored : PyDict)
    (h a d m : String) :
    enhanceChange .git repository mirrored
        [("hash", h), ("author", a), ("date", d), ("message", m)] =
      [("author", a), ("date", d), ("message", m),
       ("git_url", gitRevisionUrl repository h), ("git_hash", h),
       ("hg_url", hgRevisionUrl repository ((dictGet mirrored h).getD "NO MIRROR")),
       ("hg_hash", (dictGet mirrored h).getD "NO MIRROR")] := rfl

theorem keys_frame_hg (k : String) :
    k ∈ (["author", "date", "message", "hg_url", "hg_hash", "git_url",
          "git_hash"] : List String) ↔
      ((k ∈ (["hash", "author", "date", "message"] : List String) ∧ k ≠ "hash") ∨
        k ∈ (["hg_hash", "git_hash", "hg_url", "git_url"] : List String)) := by
  simp only [List.mem_cons, List.not_mem_nil, or_false]
  constructor
  · rintro (rfl | rfl | rfl | rfl | rfl | rfl | rfl) <;> decide
  · rintro (⟨h1, hne⟩ | h2)
    · rcases h1 with rfl | rfl | rfl | rfl
      · exact absurd rfl hne
      · decide
      · decide
      · decide
    · rcases h2 with rfl | rfl | rfl | rfl <;> decide

theorem keys_frame_git (k : String) :
    k ∈ (["author", "date", "message", "git_url", "git_hash", "hg_url",
          "hg_hash"] : List String) ↔
      ((k ∈ (["hash", "author", "date", "message"] : List String) ∧ k ≠ "hash") ∨
        k ∈ (["hg_hash", "git_hash", "hg_url", "git_url"] : List String)) := by
  simp only [List.mem_cons, List.not_mem_nil, or_false]
  constructor
  · rintro (rfl | rfl | rfl | rfl | rfl | rfl | rfl) <;> decide
  · rintro (⟨h1, hne⟩ | h2)
    · rcases h1 with rfl | rfl | rfl | rfl
      · exact absurd rfl hne
      · decide
      · decide
      · decide
    · rcases h2 with rfl | rfl | rfl | rfl <;> decide

theorem find?_key_eq_none (d : PyDict) (k : String) (hk : k ∉ dictKeys d) :
    d.find? (fun p => p.1 == k) = none := by
  apply List.find?_eq_none.mpr
  intro p hp hbeq
  exact hk (eq_of_beq hbeq ▸ List.mem_map_of_mem Prod.fst hp)

theorem dictSet_append (d : PyDict) (k v : String) (hk : k ∉ dictKeys d) :
    dictSet d k v = d ++ [(k, v)] := by
  unfold dictSet
  rw [find?_key_eq_none d k hk]
  rfl

theorem foldl_dictSet (ps : List (String × String)) :
    ∀ d : PyDict, (∀ k, k ∈ dictKeys ps → k ∉ dictKeys d) →
      (dictKeys ps).Nodup →
      ps.foldl (fun d p => dictSet d p.1 p.2) d = d ++ ps := by
  induction ps with
  | nil =>
    intro d _ _
    simp
  | cons p rest ih =>
    intro d hdisj hnd
    have hp1 : p.1 ∉ dictKeys d := hdisj p.1 (by simp [dictKeys])
    have hnodup :=
      List.nodup_cons.mp (show (p.1 :: dictKeys rest).Nodup from hnd)
    simp only [List.foldl_cons]
    rw [dictSet_append d p.1 p.2 hp1]
    have hdisj2 : ∀ k, k ∈ dictKeys rest → k ∉ dictKeys (d ++ [(p.1, p.2)]) := by
      intro k hk
      have hkd : k ∉ dictKeys d := hdisj k (by simp [dictKeys] at hk ⊢; exact Or.inr hk)
      have hkp : k ≠ p.1 := by
        intro he
        exact hnodup.1 (he ▸ hk)
      simp only [dictKeys, List.map_append] at hkd ⊢
      simp [hkd, hkp]
    rw [ih (d ++ [(p.1, p.2)]) hdisj2 hnodup.2]
    simp

theorem dictFromPairs_eq_self (ps : List (String × String))
    (hnd : (dictKeys ps).Nodup) : dictFromPairs ps = ps := by
  have := foldl_dictSet ps [] (by intro k _; simp [dictKeys]) hnd
  simpa [dictFromPairs] using this

theorem dictGet_of_mem (ps : PyDict) (hnd : (dictKeys ps).Nodup)
    (k v : String) (hmem : (k, v) ∈ ps) : dictGet ps k = some v := by
  induction ps with
  | nil => cases hmem
  | cons p rest ih =>
    have hnodup :=
      List.nodup_cons.mp (show (p.1 :: dictKeys rest).Nodup from hnd)
    rcases List.mem_cons.mp hmem with heq | hmem2
    · subst heq
      unfold dictGet
      rw [List.find?_cons, beq_self_eq_true]
      rfl
    · have hkrest : k ∈ dictKeys rest :=
        List.mem_map_of_mem Prod.fst hmem2
      have hne : (p.1 == k) = false := by
        rw [beq_eq_false_iff_ne]
        intro hbeq
        exact hnodup.1 (hbeq ▸ hkrest)
      unfold dictGet
      rw [List.find?_cons, hne]
      exact ih hnodup.2 hmem2

/-! ## Claim theorems -/

/-- C2: for every revision `r`, `change_list(r, r)` returns an empty sequence
for both backend kinds: the Mercurial revset `r::r` selects only the single
boundary changeset, which the post-processing in `Mercurial.change_list`
drops, and the Git two-dot range `r..r` selects nothing. -/
theorem change_list_same_revision_empty (n r : Nat) :
    mercurialChangeList n r r = [] ∧ gitChangeList n r r = [] := by
  constructor
  · unfold mercurialChangeList hgRawLog
    rw [range_filter_le_le]
    by_cases h : r < n
    · simp [h]
    · simp [h]
  · unfold gitChangeList gitRawLog
    apply List.filter_eq_nil_iff.mpr
    intro i _
    simp only [Bool.and_eq_true, decide_eq_true_eq, not_and]
    omega

/-- C1: for every pair of revisions yielding a non-empty result, both
backends return commits ordered oldest-first: the Mercurial variant uses the
inclusive range expression `revA::revB`, drops the first element of the raw
newest-first output, and reverses the remainder; the Git variant uses the
exclusive-of-`revA` two-dot range `revA..revB` whose raw output needs no
post-processing. -/
theorem change_list_oldest_first (n a b : Nat)
    (hm : mercurialChangeList n a b ≠ []) (hgit : gitChangeList n a b ≠ []) :
    (∀ ra rb : String, Mercurial.rev_comb ra rb = ["-r", ra ++ "::" ++ rb]) ∧
    mercurialChangeList n a b = ((hgRawLog n a b).drop 1).reverse ∧
    List.Sorted (· > ·) (hgRawLog n a b) ∧
    List.Sorted (· < ·) (mercurialChangeList n a b) ∧
    (∀ ra rb : String, Git.rev_comb ra rb = [ra ++ ".." ++ rb]) ∧
    gitChangeList n a b = gitRawLog n a b ∧
    List.Sorted (· < ·) (gitChangeList n a b) := by
  have hasc : List.Pairwise (· < ·)
      ((List.range n).filter (fun i => a ≤ i && i ≤ b)) :=
    (List.pairwise_lt_range n).filter _
  have hraw : List.Pairwise (· > ·) (hgRawLog n a b) := by
    unfold hgRawLog
    exact List.pairwise_reverse.mpr hasc
  refine ⟨fun _ _ => rfl, rfl, hraw, ?_, fun _ _ => rfl, rfl, ?_⟩
  · unfold mercurialChangeList
    exact List.pairwise_reverse.mpr (hraw.sublist (List.drop_sublist 1 _))
  · unfold gitChangeList gitRawLog
    exact (List.pairwise_lt_range n).filter _

/-- Witness for C1 at the concrete linear history of 3 commits with the
range from revision 0 to revision 2. -/
theorem change_list_oldest_first_witness :
    (mercurialChangeList 3 0 2 ≠ [] ∧ gitChangeList 3 0 2 ≠ []) ∧
    List.Sorted (· < ·) (mercurialChangeList 3 0 2) ∧
    List.Sorted (· < ·) (gitChangeList 3 0 2) :=
  ⟨⟨by decide, by decide⟩,
   (change_list_oldest_first 3 0 2 (by decide) (by decide)).2.2.2.1,
   (change_list_oldest_first 3 0 2 (by decide) (by decide)).2.2.2.2.2.2⟩

/-- C4 counterexample: on the raw log text `"\n{}"` (a leading blank line)
the code strips the escaped text before splitting it into lines, handing
`"[{}]"` to the JSON parser, while the steps enumerated by the claim (which
omit the stripping step) construct `"[,{}]"`; the two parse inputs differ,
so the transformation is not given by exactly the claimed steps. -/
theorem log_parse_counterexample :
    changes_json_text ("\n{}".toList) = "[{}]".toList ∧
    claim_json_text ("\n{}".toList) = "[,{}]".toList ∧
    changes_json_text ("\n{}".toList) ≠ claim_json_text ("\n{}".toList) :=
  ⟨by decide, by decide, by decide⟩

/-- C4 (amended): the log parser escapes every literal double quote as a
backslash-quote, replaces every occurrence of the placeholder token
`'__DQ__'` by a literal double quote, strips the result of leading and
trailing whitespace, joins the newline-delimited objects with commas, wraps
them in square brackets and hands the text to the JSON parser in one call,
so an unparseable structure is a fatal parse error of the whole call, never
a skipped record. -/
theorem log_parse_pipeline
    (jsonLoads : List Char → Except String (List LogRecord))
    (changes : List Char) :
    changes_as_json jsonLoads changes = jsonLoads (claim_json_text_amended changes) ∧
    changes_json_text changes = claim_json_text_amended changes := by
  have h := escape_changes_eq_spec changes
  refine ⟨?_, ?_⟩
  · simp only [changes_as_json, changes_json_text, claim_json_text_amended, h]
  · simp only [changes_json_text, claim_json_text_amended, h]

/-- C5: the backend factory returns a handle of kind `k` exactly when `k` is
the unique backend kind whose marker directory (`.hg` or `.git`) exists
directly under the path; when zero kinds match or both kinds match it raises
the `VcsException` error instead (fail-closed). -/
theorem factory_unique_kind (p : RepoPath) (location : String) :
    (∀ k : VcsKind, factory p location = .ok k ↔
      (k.is_vcs_for_repo p = true ∧ k.other.is_vcs_for_repo p = false)) ∧
    ((p.hasHg = true ∧ p.hasGit = true) ∨ (p.hasHg = false ∧ p.hasGit = false) →
      ∀ k : VcsKind, factory p location ≠ .ok k) := by
  obtain ⟨hh, hg⟩ := p
  constructor
  · intro k
    cases hh <;> cases hg <;> cases k <;>
      simp [factory, factoryStep, VcsKind.is_vcs_for_repo, VcsKind.other]
  · intro hdeg k
    cases hh <;> cases hg <;> cases k <;>
      simp [factory, factoryStep, VcsKind.is_vcs_for_repo, VcsKind.other] <;>
      simp at hdeg

/-- Witness for C5: a path with both markers fails, a path with only the
`.hg` marker detects as Mercurial. -/
theorem factory_unique_kind_witness :
    factory ⟨true, true⟩ "loc" ≠ .ok .hg ∧
    factory ⟨true, false⟩ "loc" = .ok .hg :=
  ⟨(factory_unique_kind ⟨true, true⟩ "loc").2 (Or.inl ⟨rfl, rfl⟩) .hg,
   ((factory_unique_kind ⟨true, false⟩ "loc").1 .hg).mpr ⟨rfl, rfl⟩⟩

/-- C6 counterexample: a subprocess that exits 1 after writing `"out"` to
stdout and `"boom"` to stderr: the raised error carries the captured stdout
`"out"`, not the stderr text `"boom"` (which the code redirected to the null
device), refuting the claim that the process error carries the captured
stderr text. -/
theorem run_cmd_counterexample :
    (runCmd ⟨1, "out", "boom"⟩).1 = .error ⟨1, "out"⟩ ∧
    (runCmd ⟨1, "out", "boom"⟩).1 ≠ .error ⟨1, "boom"⟩ :=
  ⟨rfl, by simp [runCmd]⟩

/-- C6 (amended): the command runner returns the subprocess's stdout text
when it exits zero; when it exits non-zero it fails with a process error
carrying the exit code and the captured stdout text, printing that stdout to
the tool's own stderr stream; the child's stderr is discarded (sent to the
null device) on every path. -/
theorem run_cmd_stdout_surfaced (p : ProcResult) :
    (p.exitCode = 0 → runCmd p = (.ok p.stdout, "")) ∧
    (p.exitCode ≠ 0 → runCmd p = (.error ⟨p.exitCode, p.stdout⟩, p.stdout)) := by
  constructor <;> intro h <;> simp [runCmd, h]

/-- Witness for C6 (amended) at a succeeding and at a failing subprocess. -/
theorem run_cmd_stdout_surfaced_witness :
    runCmd ⟨0, "o", "e"⟩ = (.ok "o", "") ∧
    runCmd ⟨1, "o", "e"⟩ = (.error ⟨1, "o"⟩, "o") :=
  ⟨(run_cmd_stdout_surfaced ⟨0, "o", "e"⟩).1 rfl,
   (run_cmd_stdout_surfaced ⟨1, "o", "e"⟩).2 (by decide)⟩

/-- C7: a temporary working copy materialized for a non-local location is
removed from the filesystem on every exit path of the `with` block — the
result of the body (whether a value or a raised error) is returned
unchanged while the cleanup happens unconditionally — and a handle bound to
an existing local directory leaves the filesystem untouched on release. -/
theorem temporary_clone_cleanup {ε α : Type} (fs : List String)
    (location tmp : String) (body : VcsHandle → Except ε α)
    (htmp : tmp ∉ fs) :
    (location ∉ fs → tmp ∉ (withVcs fs location tmp body).2) ∧
    (location ∈ fs → (withVcs fs location tmp body).2 = fs) ∧
    (withVcs fs location tmp body).1 = body (vcsInit fs location tmp).1 := by
  by_cases hloc : location ∈ fs
  · have h2 : withVcs fs location tmp body = (body ⟨location, false⟩, fs) := by
      simp [withVcs, vcsInit, vcsExit, hloc]
    rw [h2]
    exact ⟨fun hn => absurd hloc hn, fun _ => rfl, by simp [vcsInit, hloc]⟩
  · have h1 : withVcs fs location tmp body =
        (body ⟨tmp, true⟩, (tmp :: fs).erase tmp) := by
      simp [withVcs, vcsInit, vcsExit, hloc]
    rw [h1, List.erase_cons_head]
    exact ⟨fun _ => htmp, fun hmem => absurd hmem hloc, by simp [vcsInit, hloc]⟩

/-- Witness for C7: a fresh temporary directory for a non-local location is
gone after the block even though the body raised, and a local repository
directory survives its handle. -/
theorem temporary_clone_cleanup_witness :
    ("tmpdir" ∉ (withVcs ["repo"] "remote" "tmpdir"
        (fun _ => (.error 0 : Except Nat Nat))).2) ∧
    (withVcs ["repo"] "repo" "tmpdir"
        (fun _ => (.error 0 : Except Nat Nat))).2 = ["repo"] :=
  ⟨(temporary_clone_cleanup ["repo"] "remote" "tmpdir"
      (fun _ => (.error 0 : Except Nat Nat)) (by decide)).1 (by decide),
   (temporary_clone_cleanup ["repo"] "repo" "tmpdir"
      (fun _ => (.error 0 : Except Nat Nat)) (by decide)).2.1 (by decide)⟩

/-- C9: when the forward listing is empty but the reverse listing is
non-empty, `DepUpdate.__init__` emits the downgrade warning and proceeds
with the reverse-range data. -/
theorem downgrade_detected {ρ α : Type} (f : ρ → ρ → List α) (base newRev : ρ)
    (hfwd : f base newRev = []) (hrev : f newRev base ≠ []) :
    initChanges f base newRev = (f newRev base, true) := by
  have hlen : (f newRev base).length > 0 := List.length_pos.mpr hrev
  simp [initChanges, hfwd, hlen]

/-- Witness for C9 at a concrete two-revision history where only the
reverse range is non-empty. -/
theorem downgrade_detected_witness :
    initChanges (fun a b : Bool => if a && !b then ([7] : List Nat) else [])
      false true = ([7], true) :=
  downgrade_detected _ false true (by decide) (by decide)

/-- C3 counterexample: two commits sharing author, date and message but
carrying distinct hashes trigger two mirror searches for the same metadata
triple during one pass of `enhance_changes_information` — the dict built
there is keyed by commit hash and there is no cache keyed by the triple, so
"searched at most once" fails. -/
theorem match_cache_counterexample :
    searchCount ("alice", "2018-01-01", "squash")
      [squashChangeA, squashChangeB] = 2 ∧
    ¬(searchCount ("alice", "2018-01-01", "squash")
      [squashChangeA, squashChangeB] ≤ 1) :=
  ⟨by decide, by decide⟩

/-- C3 (amended): mirror-hash resolution uses no cache keyed by the
(author, date, message) triple: one mirror search is issued per commit of
the change list (the resulting mapping is keyed by commit hash), so the
number of searches for a triple equals the number of commits bearing that
triple; with pairwise-distinct hashes each commit receives the result of
its own search, so commits sharing a triple receive equal results through
separate searches. -/
theorem mirror_search_per_commit (query : String × String × String → String)
    (changes : List PyDict)
    (hnd : (changes.map (fun c => (dictGet c "hash").getD "")).Nodup) :
    mirrorQueries changes = changes.map tripleOf ∧
    (∀ t, searchCount t changes =
      (changes.filter (fun c => decide (tripleOf c = t))).length) ∧
    (∀ c ∈ changes,
      dictGet (mirrored_hashes query changes) ((dictGet c "hash").getD "") =
        some (query (tripleOf c))) := by
  refine ⟨rfl, fun t => ?_, fun c hc => ?_⟩
  · rw [searchCount, mirrorQueries, List.countP_map,
      List.countP_eq_length_filter]
    rfl
  · have hnd2 : (dictKeys (changes.map
        (fun c => ((dictGet c "hash").getD "", query (tripleOf c))))).Nodup := by
      show ((changes.map
        (fun c => ((dictGet c "hash").getD "", query (tripleOf c)))).map
          Prod.fst).Nodup
      rw [List.map_map]
      exact hnd
    rw [mirrored_hashes, dictFromPairs_eq_self _ hnd2]
    exact dictGet_of_mem _ hnd2 _ _ (List.mem_map_of_mem _ hc)

/-- Witness for C3 (amended) at the two squash records (distinct hashes). -/
theorem mirror_search_per_commit_witness :
    (([squashChangeA, squashChangeB].map
        (fun c => (dictGet c "hash").getD "")).Nodup) ∧
    mirrorQueries [squashChangeA, squashChangeB] =
      [squashChangeA, squashChangeB].map tripleOf ∧
    dictGet (mirrored_hashes (fun _ => "mh") [squashChangeA, squashChangeB])
        ((dictGet squashChangeA "hash").getD "") = some "mh" :=
  ⟨by decide,
   (mirror_search_per_commit (fun _ => "mh") [squashChangeA, squashChangeB]
     (by decide)).1,
   (mirror_search_per_commit (fun _ => "mh") [squashChangeA, squashChangeB]
     (by decide)).2.2 squashChangeA (by simp)⟩

/-- C10: for every well-formed change list, `enhance_changes_information`
preserves length and order and each record's author, date and message; it
removes the `hash` key and adds exactly the keys `hg_hash`, `git_hash`,
`hg_url` and `git_url`; and the skip flag makes every mirror-side hash the
sentinel `'NO MIRROR'`. -/
theorem enhance_frame (kind : VcsKind) (repository : String)
    (query : String × String × String → String) (fake : Bool)
    (changes : List PyDict) (wf : ∀ c ∈ changes, WfChange c) :
    (enhance_changes_information kind repository query fake changes).length =
      changes.length ∧
    List.Forall₂ (EnhancedRecordProp kind fake) changes
      (enhance_changes_information kind repository query fake changes) := by
  have hrepr : enhance_changes_information kind repository query fake changes =
      changes.map (enhanceChange kind repository
        (if fake then [] else mirrored_hashes query changes)) := rfl
  rw [hrepr]
  refine ⟨by simp, ?_⟩
  rw [List.forall₂_map_right_iff]
  apply List.forall₂_same.mpr
  intro c hc
  obtain ⟨h, a, d, m, rfl⟩ := wf c hc
  cases kind with
  | hg =>
    rw [enhanceChange_hg]
    refine ⟨rfl, rfl, rfl, rfl, fun k => keys_frame_hg k, fun hfake => ?_⟩
    subst hfake
    rfl
  | git =>
    rw [enhanceChange_git]
    refine ⟨rfl, rfl, rfl, rfl, fun k => keys_frame_git k, fun hfake => ?_⟩
    subst hfake
    rfl

/-- Witness for C10 at a one-record change list with the skip flag set. -/
theorem enhance_frame_witness :
    (∀ c ∈ ([[("hash", "h1"), ("author", "a1"), ("date", "d1"),
        ("message", "m1")]] : List PyDict), WfChange c) ∧
    List.Forall₂ (EnhancedRecordProp .hg true)
      [[("hash", "h1"), ("author", "a1"), ("date", "d1"), ("message", "m1")]]
      (enhance_changes_information .hg "repo" (fun _ => "q") true
        [[("hash", "h1"), ("author", "a1"), ("date", "d1"),
          ("message", "m1")]]) := by
  have wf1 : ∀ c ∈ ([[("hash", "h1"), ("author", "a1"), ("date", "d1"),
      ("message", "m1")]] : List PyDict), WfChange c := by
    intro c hc
    rw [List.mem_singleton] at hc
    exact ⟨"h1", "a1", "d1", "m1", hc⟩
  exact ⟨wf1, (enhance_frame .hg "repo" (fun _ => "q") true _ wf1).2⟩

/-- C8: the working-copy operations satisfy their contracts — cleanliness is
emptiness of the pending modifications, discarding reverts to the last
committed state, committing records all pending modifications under the
given message — and in the commit-and-update sequence a subprocess failure
triggers the rollback: `undo_changes` is invoked and the dependency working
copy is left clean rather than half-updated, while on success the commit
message is returned and no rollback happens. -/
theorem working_copy_rollback :
    (∀ w : WorkingCopy, repo_is_clean w = true ↔ w.pending = []) ∧
    (∀ w : WorkingCopy, undo_changes w = ⟨w.committed, []⟩ ∧
      repo_is_clean (undo_changes w) = true) ∧
    (∀ (msg : String) (w : WorkingCopy),
      commit_changes msg w = ⟨w.committed ++ [(msg, w.pending)], []⟩) ∧
    (∀ (msg : String) (updateDeps : WorkingCopy → WorkingCopy)
        (f1 f2 : Bool) (st : DepState), f1 = true ∨ f2 = true →
      (commit_update msg updateDeps f1 f2 st).2.2 = true ∧
      (commit_update msg updateDeps f1 f2 st).2.1.main = undo_changes st.main ∧
      repo_is_clean (commit_update msg updateDeps f1 f2 st).2.1.main = true) ∧
    (∀ (msg : String) (updateDeps : WorkingCopy → WorkingCopy) (st : DepState),
      (commit_update msg updateDeps false false st).1 = some msg ∧
      (commit_update msg updateDeps false false st).2.2 = false) := by
  refine ⟨fun w => ?_, fun w => ⟨rfl, rfl⟩, fun msg w => rfl, ?_,
    fun msg u st => ⟨rfl, rfl⟩⟩
  · rw [repo_is_clean, List.isEmpty_iff]
  · intro msg u f1 f2 st hf
    cases f1 with
    | true => exact ⟨rfl, rfl, rfl⟩
    | false =>
      cases f2 with
      | true => exact ⟨rfl, rfl, rfl⟩
      | false => simp at hf

/-- Witness for C8: a failing copied-code update step rolls the dependency
working copy back to a clean state. -/
theorem working_copy_rollback_witness :
    (commit_update "msg" id true false ⟨⟨[], []⟩, ⟨[], ["edit"]⟩⟩).2.2 = true ∧
    (commit_update "msg" id true false ⟨⟨[], []⟩, ⟨[], ["edit"]⟩⟩).2.1.main =
      undo_changes ⟨[], ["edit"]⟩ :=
  ⟨(working_copy_rollback.2.2.2.1 "msg" id true false
      ⟨⟨[], []⟩, ⟨[], ["edit"]⟩⟩ (Or.inl rfl)).1,
   (working_copy_rollback.2.2.2.1 "msg" id true false
      ⟨⟨[], []⟩, ⟨[], ["edit"]⟩⟩ (Or.inl rfl)).2.1⟩

end Depup
